import Mathlib

/-!
Verification of the audioIO streaming engine core against its
natural-language specification.

The development shallowly embeds the engine sources:

* `src/framework/enginehelper.py` / `src/framework/engine.py`: the sample
  format converter (`clip_pcm`, `clip_float`, `float_to_pcm`,
  `pcm_to_float`, `pcm_to_pcm`), the twelve algorithm wrappers and
  `default_algorithm`;
* `src/signalhook/engine.py`: `BaseEngine.select_algorithm_wrapper`,
  `BaseEngine.update_reachback_deques`, `BaseEngine.reach_back`,
  the reach-back deque capacity computed in `BaseEngine.__init__`, and
  `FileToFileEngine.flush`;
* `src/framework/wav_io.py`: `WavBase.init_struct_fmt_str`;
* `src/framework/base_io.py`: the constants (`SAMPLES_PER_BUFFER`, struct
  size constants, format codes).

Python numbers (ints and binary floats) are embedded as `ℚ`; `math.floor`
is `Int.floor`.  A sample buffer (`sampleNestedList`) is a `List` of
blocks, each block a `List` of per-channel samples.  Conversion and clip
routines mutate the nested list in place in Python and return the same
object; in the pure embedding they are functions from buffers to buffers,
and a Python variable that aliases the mutated list denotes the updated
value.  Code that can raise (`IndexError` on an empty deque,
`IncompatibleFileFormat`) is embedded with `Option`.
-/

namespace AudioSpec

/-- One decoded sample value (Python int or float, embedded as `ℚ`). -/
abbrev Sample : Type := ℚ

/-- One block: one sample per channel, in channel order. -/
abbrev Block : Type := List Sample

/-- One buffer-full of decoded audio: a list of blocks
(`sampleNestedList` in the source). -/
abbrev Buffer : Type := List Block

/-- Number of samples (blocks) per standard read buffer
(`base_io.SAMPLES_PER_BUFFER`). -/
def SAMPLES_PER_BUFFER : ℕ := 1024

/-- Format kind strings `base_io.FLOAT` / `base_io.PCM`. -/
inductive FmtKind where
  | float
  | pcm
deriving DecidableEq

/-- Sample-format fields the engine caches for wrapper selection
(`readFormat`, `writeFormat`, `readBitDepth`, `writeBitDepth`,
`readSigned`, `writeSigned` in `BaseEngine.__init__`) together with the
requested plugin exposure format (`options[PLUGIN_FMT]`). -/
structure EngineFormats where
  readFormat : FmtKind
  writeFormat : FmtKind
  readBitDepth : ℕ
  writeBitDepth : ℕ
  readSigned : Bool
  writeSigned : Bool
  pluginFmt : FmtKind
deriving DecidableEq

/-- `enginehelper.clip_pcm`: clamp every sample to the signed range
`[-2^(bitDepth-1), 2^(bitDepth-1) - 1]`. -/
def clip_pcm (sampleNestedList : Buffer) (bitDepth : ℕ) : Buffer :=
  sampleNestedList.map fun block => block.map fun s =>
    if s > (2 : ℚ) ^ ((bitDepth : ℤ) - 1) - 1 then (2 : ℚ) ^ ((bitDepth : ℤ) - 1) - 1
    else if s < -((2 : ℚ) ^ ((bitDepth : ℤ) - 1)) then -((2 : ℚ) ^ ((bitDepth : ℤ) - 1))
    else s

/-- `enginehelper.clip_float`: clamp every sample to `[-1.0, 1.0]`. -/
def clip_float (sampleNestedList : Buffer) : Buffer :=
  sampleNestedList.map fun block => block.map fun s =>
    if s > 1 then 1
    else if s < -1 then -1
    else s

/-- `enginehelper.float_to_pcm`: element-wise
`floor(sample * ((2^bitDepth - 1) / 2))` when converting to signed PCM,
`floor((sample + 1) * ((2^bitDepth - 1) / 2))` when converting to
unsigned PCM. -/
def float_to_pcm (sampleNestedList : Buffer) (bitDepth : ℕ) (signed : Bool) : Buffer :=
  if signed then
    sampleNestedList.map fun block => block.map fun s =>
      ((⌊s * (((2 : ℚ) ^ bitDepth - 1) / 2)⌋ : ℤ) : ℚ)
  else
    sampleNestedList.map fun block => block.map fun s =>
      ((⌊(s + 1) * (((2 : ℚ) ^ bitDepth - 1) / 2)⌋ : ℤ) : ℚ)

/-- `enginehelper.pcm_to_float`: element-wise, for signed input
`sample / 2^(bitDepth-1)` when `sample <= 0` and
`sample / 2^(bitDepth-1) + 1 / 2^(bitDepth-1)` otherwise; for unsigned
input `sample / ((2^bitDepth - 1) / 2) - 1`. -/
def pcm_to_float (sampleNestedList : Buffer) (bitDepth : ℕ) (signed : Bool) : Buffer :=
  if signed then
    sampleNestedList.map fun block => block.map fun s =>
      if s ≤ 0 then s / (2 : ℚ) ^ ((bitDepth : ℤ) - 1)
      else s / (2 : ℚ) ^ ((bitDepth : ℤ) - 1) + 1 / (2 : ℚ) ^ ((bitDepth : ℤ) - 1)
  else
    sampleNestedList.map fun block => block.map fun s =>
      s / (((2 : ℚ) ^ bitDepth - 1) / 2) - 1

/-- `enginehelper.pcm_to_pcm`: convert to float, then back to PCM at the
desired bit depth and signedness. -/
def pcm_to_pcm (sampleNestedList : Buffer) (inBitDepth outBitDepth : ℕ)
    (inSigned outSigned : Bool) : Buffer :=
  float_to_pcm (pcm_to_float sampleNestedList inBitDepth inSigned) outBitDepth outSigned

/-- Inner loop of `BaseEngine.reach_back`
(`for i in range(1, len(self.bufferLenDeque)+1): index1 -= 1;
rbIndex += self.bufferLenDeque[-i]; if rbIndex >= 0: break`).
The argument list is `bufferLenDeque` read from the newest entry to the
oldest (`bufferLenDeque[-1], bufferLenDeque[-2], ...`).  The result
`some (k, r)` means the loop broke at iteration `i = k + 1` with
`index1 = -(k+1)` and the (now nonnegative) running index `rbIndex = r`;
`none` models the loop running off the end without breaking, after which
the source would index the deques with stale values. -/
def rbWalk : List ℕ → ℤ → Option (ℕ × ℤ)
  | [], _ => none
  | l :: rest, rbIndex =>
    let rbIndex' := rbIndex + (l : ℤ)
    if 0 ≤ rbIndex' then some (0, rbIndex')
    else
      match rbWalk rest rbIndex' with
      | some kr => some (kr.1 + 1, kr.2)
      | none => none

/-- `BaseEngine.reach_back`.  `bufs` is `reachBackDeque` (oldest first)
and `lens` is `bufferLenDeque` (oldest first).  `preceedingSamples` is the
sum of all recorded lengths minus the most recent length plus `currBlock`;
if `numSamples` exceeds it the source returns the literal `0`.  Otherwise
the walk starts from `rbIndex = currBlock - bufferLenDeque[-1] -
numSamples` and the sample `reachBackDeque[index1][rbIndex][currChannel]`
is returned; `index1 = -(k+1)` indexes from the newest end, i.e.
`bufs.reverse[k]`.  `none` models an `IndexError` (empty deque or
out-of-range index). -/
def reach_back (bufs : List Buffer) (lens : List ℕ)
    (numSamples currBlock currChannel : ℕ) : Option Sample :=
  lens.getLast?.bind fun lastLen =>
    if ((lens.sum : ℤ) - (lastLen : ℤ) + (currBlock : ℤ)) < (numSamples : ℤ) then
      some 0
    else
      (rbWalk lens.reverse ((currBlock : ℤ) - (lastLen : ℤ) - (numSamples : ℤ))).bind
        fun kr =>
          (bufs.reverse[kr.1]?).bind fun buf =>
            (buf[kr.2.toNat]?).bind fun block =>
              block[currChannel]?

/-- Capacity of the two reach-back deques, from `BaseEngine.__init__`:
`math.ceil(reachBack / SAMPLES_PER_BUFFER) + 1` when the configured
reach-back is positive, else `0`. -/
def reachBackDequeLength (reachBack : ℕ) : ℕ :=
  if 0 < reachBack then
    (reachBack + SAMPLES_PER_BUFFER - 1) / SAMPLES_PER_BUFFER + 1
  else 0

/-- The twelve algorithm wrapper strategies defined in
`enginehelper.py` and selected by `BaseEngine.select_algorithm_wrapper`. -/
inductive WrapperKind where
  | fff
  | fpf
  | pfp
  | ppp_unsigned
  | ppp_signed_no_conversion
  | ppp_signed_conversion
  | ffp
  | fpp_unsigned
  | fpp_signed
  | pff
  | ppf_unsigned
  | ppf_signed
deriving DecidableEq

/-- `BaseEngine.select_algorithm_wrapper`: choose the wrapper strategy
from the read/write formats, the read/write bit depths and signedness,
and the requested plugin format.  The source falls off the end (returns
`None`) when no branch matches. -/
def select_algorithm_wrapper (p : EngineFormats) : Option WrapperKind :=
  if p.readFormat = p.writeFormat ∧ p.readFormat = FmtKind.float then
    if p.pluginFmt = FmtKind.float then some WrapperKind.fff
    else if p.pluginFmt = FmtKind.pcm then some WrapperKind.fpf
    else none
  else if p.readFormat = p.writeFormat ∧ p.readFormat = FmtKind.pcm then
    if p.pluginFmt = FmtKind.float then some WrapperKind.pfp
    else if p.pluginFmt = FmtKind.pcm then
      if p.readSigned = false then some WrapperKind.ppp_unsigned
      else if p.readBitDepth = p.writeBitDepth ∧ p.readSigned = p.writeSigned then
        some WrapperKind.ppp_signed_no_conversion
      else some WrapperKind.ppp_signed_conversion
    else none
  else if p.readFormat ≠ p.writeFormat ∧ p.readFormat = FmtKind.float then
    if p.pluginFmt = FmtKind.float then some WrapperKind.ffp
    else if p.pluginFmt = FmtKind.pcm then
      if p.writeSigned = false then some WrapperKind.fpp_unsigned
      else some WrapperKind.fpp_signed
    else none
  else if p.readFormat ≠ p.writeFormat ∧ p.readFormat = FmtKind.pcm then
    if p.pluginFmt = FmtKind.float then some WrapperKind.pff
    else if p.pluginFmt = FmtKind.pcm then
      if p.readSigned = false then some WrapperKind.ppf_unsigned
      else some WrapperKind.ppf_signed
    else none
  else none

/-- State of the two bounded reach-back deques owned by the engine. -/
structure DequeState where
  reachBackDeque : List Buffer
  bufferLenDeque : List ℕ
  maxlen : ℕ
deriving DecidableEq

/-- Appending to a Python `deque(..., maxlen)`: the new element goes on
the right and elements are evicted from the left once the length exceeds
`maxlen` (a `maxlen` of `0` keeps the deque empty). -/
def dequePush {α : Type} (maxlen : ℕ) (xs : List α) (x : α) : List α :=
  if (xs ++ [x]).length ≤ maxlen then xs ++ [x]
  else (xs ++ [x]).drop ((xs ++ [x]).length - maxlen)

/-- `BaseEngine.update_reachback_deques`: append a deep copy of the
buffer to `reachBackDeque` and its block count to `bufferLenDeque`. -/
def update_reachback_deques (s : DequeState) (sampleNestedList : Buffer) : DequeState :=
  { s with
    reachBackDeque := dequePush s.maxlen s.reachBackDeque sampleNestedList
    bufferLenDeque := dequePush s.maxlen s.bufferLenDeque sampleNestedList.length }

/-- Type of the plugin algorithm callback as seen by a wrapper: it
receives the engine (of which only the deque state matters here) and the
buffer, and returns a processed buffer. -/
abbrev Alg : Type := DequeState → Buffer → Buffer

/-- `enginehelper.default_algorithm`: return the buffer unchanged. -/
def default_algorithm : Alg := fun _ sampleNestedList => sampleNestedList

/-- `enginehelper.wrapper_fff` (read float, plugin float, write float). -/
def wrapper_fff (_p : EngineFormats) (alg : Alg) (s : DequeState) (buf : Buffer) :
    DequeState × Buffer :=
  let s' := update_reachback_deques s buf
  let processedNest := alg s' buf
  (s', clip_float processedNest)

/-- `enginehelper.wrapper_fpf` (read float, plugin PCM, write float). -/
def wrapper_fpf (_p : EngineFormats) (alg : Alg) (s : DequeState) (buf : Buffer) :
    DequeState × Buffer :=
  let preProcessedNest := float_to_pcm buf 32 true
  let s' := update_reachback_deques s preProcessedNest
  let processedNest := alg s' preProcessedNest
  let clippedNest := clip_pcm processedNest 32
  (s', pcm_to_float clippedNest 32 true)

/-- `enginehelper.wrapper_pfp` (read PCM, plugin float, write PCM). -/
def wrapper_pfp (p : EngineFormats) (alg : Alg) (s : DequeState) (buf : Buffer) :
    DequeState × Buffer :=
  let preProcessedNest := pcm_to_float buf p.readBitDepth p.readSigned
  let s' := update_reachback_deques s preProcessedNest
  let processedNest := alg s' preProcessedNest
  let clippedNest := clip_float processedNest
  (s', float_to_pcm clippedNest p.writeBitDepth p.writeSigned)

/-- `enginehelper.wrapper_ppp_unsigned` (read PCM unsigned, plugin PCM,
write PCM). -/
def wrapper_ppp_unsigned (p : EngineFormats) (alg : Alg) (s : DequeState) (buf : Buffer) :
    DequeState × Buffer :=
  let preProcessedNest := pcm_to_pcm buf p.readBitDepth p.readBitDepth p.readSigned true
  let s' := update_reachback_deques s preProcessedNest
  let processedNest := alg s' preProcessedNest
  let clippedNest := clip_pcm processedNest p.readBitDepth
  (s', pcm_to_pcm clippedNest p.readBitDepth p.writeBitDepth true p.writeSigned)

/-- `enginehelper.wrapper_ppp_signed_no_conversion` (read and write PCM
signed with equal depth, plugin PCM). -/
def wrapper_ppp_signed_no_conversion (p : EngineFormats) (alg : Alg) (s : DequeState)
    (buf : Buffer) : DequeState × Buffer :=
  let s' := update_reachback_deques s buf
  let processedNest := alg s' buf
  (s', clip_pcm processedNest p.readBitDepth)

/-- `enginehelper.wrapper_ppp_signed_conversion` (read PCM signed, plugin
PCM, write PCM with a format conversion). -/
def wrapper_ppp_signed_conversion (p : EngineFormats) (alg : Alg) (s : DequeState)
    (buf : Buffer) : DequeState × Buffer :=
  let s' := update_reachback_deques s buf
  let processedNest := alg s' buf
  let clippedNest := clip_pcm processedNest p.readBitDepth
  (s', pcm_to_pcm clippedNest p.readBitDepth p.writeBitDepth p.readSigned p.writeSigned)

/-- `enginehelper.wrapper_ffp` (read float, plugin float, write PCM). -/
def wrapper_ffp (p : EngineFormats) (alg : Alg) (s : DequeState) (buf : Buffer) :
    DequeState × Buffer :=
  let s' := update_reachback_deques s buf
  let processedNest := alg s' buf
  let clippedNest := clip_float processedNest
  (s', float_to_pcm clippedNest p.writeBitDepth p.writeSigned)

/-- `enginehelper.wrapper_fpp_unsigned` (read float, plugin PCM, write
PCM unsigned). -/
def wrapper_fpp_unsigned (p : EngineFormats) (alg : Alg) (s : DequeState) (buf : Buffer) :
    DequeState × Buffer :=
  let preProcessedNest := float_to_pcm buf p.writeBitDepth true
  let s' := update_reachback_deques s preProcessedNest
  let processedNest := alg s' preProcessedNest
  let clippedNest := clip_pcm processedNest p.writeBitDepth
  (s', pcm_to_pcm clippedNest p.writeBitDepth p.writeBitDepth true p.writeSigned)

/-- `enginehelper.wrapper_fpp_signed` (read float, plugin PCM, write PCM
signed). -/
def wrapper_fpp_signed (p : EngineFormats) (alg : Alg) (s : DequeState) (buf : Buffer) :
    DequeState × Buffer :=
  let preProcessedNest := float_to_pcm buf p.writeBitDepth p.writeSigned
  let s' := update_reachback_deques s preProcessedNest
  let processedNest := alg s' preProcessedNest
  (s', clip_pcm processedNest p.writeBitDepth)

/-- `enginehelper.wrapper_pff` (read PCM, plugin float, write float). -/
def wrapper_pff (p : EngineFormats) (alg : Alg) (s : DequeState) (buf : Buffer) :
    DequeState × Buffer :=
  let preProcessedNest := pcm_to_float buf p.readBitDepth p.readSigned
  let s' := update_reachback_deques s preProcessedNest
  let processedNest := alg s' preProcessedNest
  (s', clip_float processedNest)

/-- `enginehelper.wrapper_ppf_unsigned` (read PCM unsigned, plugin PCM,
write float).  In the source `pcm_to_pcm` mutates `sampleNestedList` in
place and returns the very same object as `preProcessedNest`, so the
`sampleNestedList` passed to the algorithm denotes the converted value. -/
def wrapper_ppf_unsigned (p : EngineFormats) (alg : Alg) (s : DequeState) (buf : Buffer) :
    DequeState × Buffer :=
  let preProcessedNest := pcm_to_pcm buf p.readBitDepth p.readBitDepth p.readSigned true
  let s' := update_reachback_deques s preProcessedNest
  let processedNest := alg s' preProcessedNest
  let clippedNest := clip_pcm processedNest p.readBitDepth
  (s', pcm_to_float clippedNest p.readBitDepth true)

/-- `enginehelper.wrapper_ppf_signed` (read PCM signed, plugin PCM, write
float).  In the source `clip_pcm` mutates `processedNest` in place and
`clippedNest` aliases it, so the final `pcm_to_float(processedNest, ...)`
receives the clipped value. -/
def wrapper_ppf_signed (p : EngineFormats) (alg : Alg) (s : DequeState) (buf : Buffer) :
    DequeState × Buffer :=
  let s' := update_reachback_deques s buf
  let processedNest := alg s' buf
  let clippedNest := clip_pcm processedNest p.readBitDepth
  (s', pcm_to_float clippedNest p.readBitDepth p.readSigned)

/-- Dispatch a `WrapperKind` to its wrapper function. -/
def runWrapper (k : WrapperKind) : EngineFormats → Alg → DequeState → Buffer →
    DequeState × Buffer :=
  match k with
  | WrapperKind.fff => wrapper_fff
  | WrapperKind.fpf => wrapper_fpf
  | WrapperKind.pfp => wrapper_pfp
  | WrapperKind.ppp_unsigned => wrapper_ppp_unsigned
  | WrapperKind.ppp_signed_no_conversion => wrapper_ppp_signed_no_conversion
  | WrapperKind.ppp_signed_conversion => wrapper_ppp_signed_conversion
  | WrapperKind.ffp => wrapper_ffp
  | WrapperKind.fpp_unsigned => wrapper_fpp_unsigned
  | WrapperKind.fpp_signed => wrapper_fpp_signed
  | WrapperKind.pff => wrapper_pff
  | WrapperKind.ppf_unsigned => wrapper_ppf_unsigned
  | WrapperKind.ppf_signed => wrapper_ppf_signed

/-- The pre-conversion each wrapper applies to the incoming buffer before
recording it and handing it to the algorithm (read off the twelve wrapper
bodies). -/
def preConv (k : WrapperKind) (p : EngineFormats) (buf : Buffer) : Buffer :=
  match k with
  | WrapperKind.fff => buf
  | WrapperKind.fpf => float_to_pcm buf 32 true
  | WrapperKind.pfp => pcm_to_float buf p.readBitDepth p.readSigned
  | WrapperKind.ppp_unsigned => pcm_to_pcm buf p.readBitDepth p.readBitDepth p.readSigned true
  | WrapperKind.ppp_signed_no_conversion => buf
  | WrapperKind.ppp_signed_conversion => buf
  | WrapperKind.ffp => buf
  | WrapperKind.fpp_unsigned => float_to_pcm buf p.writeBitDepth true
  | WrapperKind.fpp_signed => float_to_pcm buf p.writeBitDepth p.writeSigned
  | WrapperKind.pff => pcm_to_float buf p.readBitDepth p.readSigned
  | WrapperKind.ppf_unsigned => pcm_to_pcm buf p.readBitDepth p.readBitDepth p.readSigned true
  | WrapperKind.ppf_signed => buf

/-- The post-processing each wrapper applies to the algorithm's output
(read off the twelve wrapper bodies). -/
def postConv (k : WrapperKind) (p : EngineFormats) (processedNest : Buffer) : Buffer :=
  match k with
  | WrapperKind.fff => clip_float processedNest
  | WrapperKind.fpf => pcm_to_float (clip_pcm processedNest 32) 32 true
  | WrapperKind.pfp => float_to_pcm (clip_float processedNest) p.writeBitDepth p.writeSigned
  | WrapperKind.ppp_unsigned =>
      pcm_to_pcm (clip_pcm processedNest p.readBitDepth) p.readBitDepth p.writeBitDepth
        true p.writeSigned
  | WrapperKind.ppp_signed_no_conversion => clip_pcm processedNest p.readBitDepth
  | WrapperKind.ppp_signed_conversion =>
      pcm_to_pcm (clip_pcm processedNest p.readBitDepth) p.readBitDepth p.writeBitDepth
        p.readSigned p.writeSigned
  | WrapperKind.ffp => float_to_pcm (clip_float processedNest) p.writeBitDepth p.writeSigned
  | WrapperKind.fpp_unsigned =>
      pcm_to_pcm (clip_pcm processedNest p.writeBitDepth) p.writeBitDepth p.writeBitDepth
        true p.writeSigned
  | WrapperKind.fpp_signed => clip_pcm processedNest p.writeBitDepth
  | WrapperKind.pff => clip_float processedNest
  | WrapperKind.ppf_unsigned =>
      pcm_to_float (clip_pcm processedNest p.readBitDepth) p.readBitDepth true
  | WrapperKind.ppf_signed =>
      pcm_to_float (clip_pcm processedNest p.readBitDepth) p.readBitDepth p.readSigned

/-- Format of the data a wrapper exposes to the plugin algorithm, read
off the pre-conversion in each wrapper body: kind, bit depth and
signedness of the buffer handed to the callback. -/
structure ExposedFmt where
  kind : FmtKind
  bitDepth : ℕ
  signed : Bool
deriving DecidableEq

/-- Exposure format of each wrapper strategy. -/
def exposureFmt (k : WrapperKind) (p : EngineFormats) : ExposedFmt :=
  match k with
  | WrapperKind.fff => ⟨FmtKind.float, p.readBitDepth, p.readSigned⟩
  | WrapperKind.fpf => ⟨FmtKind.pcm, 32, true⟩
  | WrapperKind.pfp => ⟨FmtKind.float, p.readBitDepth, p.readSigned⟩
  | WrapperKind.ppp_unsigned => ⟨FmtKind.pcm, p.readBitDepth, true⟩
  | WrapperKind.ppp_signed_no_conversion => ⟨FmtKind.pcm, p.readBitDepth, p.readSigned⟩
  | WrapperKind.ppp_signed_conversion => ⟨FmtKind.pcm, p.readBitDepth, p.readSigned⟩
  | WrapperKind.ffp => ⟨FmtKind.float, p.readBitDepth, p.readSigned⟩
  | WrapperKind.fpp_unsigned => ⟨FmtKind.pcm, p.writeBitDepth, true⟩
  | WrapperKind.fpp_signed => ⟨FmtKind.pcm, p.writeBitDepth, p.writeSigned⟩
  | WrapperKind.pff => ⟨FmtKind.float, p.readBitDepth, p.readSigned⟩
  | WrapperKind.ppf_unsigned => ⟨FmtKind.pcm, p.readBitDepth, true⟩
  | WrapperKind.ppf_signed => ⟨FmtKind.pcm, p.readBitDepth, p.readSigned⟩

/-- The format-appropriate zero value described by the specification and
computed by `FileToFileEngine.flush` for the read format: `0` for float
and signed PCM, `2^(bitDepth-1)` for unsigned PCM. -/
def formatZero (f : ExposedFmt) : ℚ :=
  match f.kind with
  | FmtKind.float => 0
  | FmtKind.pcm =>
    if f.signed then 0 else (2 : ℚ) ^ ((f.bitDepth : ℤ) - 1)

/-- Zero sample chosen by `FileToFileEngine.flush` from the read format:
`float(0)` for float input, `int(0)` for signed PCM input,
`int(2**(readBitDepth - 1))` for unsigned PCM input. -/
def flushZero (readFormat : FmtKind) (readSigned : Bool) (readBitDepth : ℕ) : ℚ :=
  match readFormat with
  | FmtKind.float => 0
  | FmtKind.pcm =>
    if readSigned then 0 else (2 : ℚ) ^ ((readBitDepth : ℤ) - 1)

/-- The `reachBack`-many blocks of zero samples `FileToFileEngine.flush`
constructs (`nest`): each block holds one zero per channel. -/
def flushNest (readFormat : FmtKind) (readSigned : Bool) (readBitDepth : ℕ)
    (reachBack numChannels : ℕ) : Buffer :=
  List.replicate reachBack
    (List.replicate numChannels (flushZero readFormat readSigned readBitDepth))

/-- The chunking loop of `FileToFileEngine.flush`
(`while True: if counter > len(nest): break;
bufferFull = nest[counter:counter + SAMPLES_PER_BUFFER]; ...;
counter += SAMPLES_PER_BUFFER`), as the list of `bufferFull` slices
passed to the wrapper, in order.  The loop advances `counter` by
`SAMPLES_PER_BUFFER ≥ 1` each pass, so it makes at most
`len(nest) + 1` passes; `fuel` is that structural bound. -/
def flushChunksAux (nest : Buffer) : ℕ → ℕ → List Buffer
  | _, 0 => []
  | counter, fuel + 1 =>
    if nest.length < counter then []
    else
      (nest.drop counter).take SAMPLES_PER_BUFFER ::
        flushChunksAux nest (counter + SAMPLES_PER_BUFFER) fuel

/-- The sequence of buffers `FileToFileEngine.flush` feeds to the
algorithm wrapper (each is subsequently repacked and written).  When the
configured reach-back is `0` the source returns immediately and no
wrapper invocation happens. -/
def flushChunks (readFormat : FmtKind) (readSigned : Bool) (readBitDepth : ℕ)
    (reachBack numChannels : ℕ) : List Buffer :=
  if reachBack = 0 then []
  else
    flushChunksAux (flushNest readFormat readSigned readBitDepth reachBack numChannels)
      0 (reachBack + 1)

/-- Format code `wav_io.WAV_FMT_PCM`. -/
def WAV_FMT_PCM : ℕ := 1

/-- Format code `wav_io.WAV_FMT_FLOAT`. -/
def WAV_FMT_FLOAT : ℕ := 3

/-- `base_io.INT8_SIZE`: bytes in an 8-bit integer. -/
def INT8_SIZE : ℕ := 1

/-- `base_io.INT16_SIZE`: bytes in a 16-bit integer. -/
def INT16_SIZE : ℕ := 2

/-- `base_io.FLOAT_SIZE`: bytes in a single precision float. -/
def FLOAT_SIZE : ℕ := 4

/-- `base_io.DOUBLE_SIZE`: bytes in a double precision float. -/
def DOUBLE_SIZE : ℕ := 8

/-- The struct format character `WavBase.init_struct_fmt_str` assigns for
a supported audio-format/byte-depth combination. -/
inductive StructFmtChar where
  | B
  | h
  | f
  | d
deriving DecidableEq

/-- `WavBase.init_struct_fmt_str`, called at the end of
`ReadWav.read_header` (and from `WriteWav.init_header`): map the fmt
subchunk's audio format code and the derived byte depth
(`bitDepth / 8`) to a struct format character; any other combination
raises `IncompatibleFileFormat`, modelled as `none`. -/
def init_struct_fmt_str (audioFmt byteDepth : ℕ) : Option StructFmtChar :=
  if audioFmt = WAV_FMT_PCM ∧ byteDepth = INT8_SIZE then some StructFmtChar.B
  else if audioFmt = WAV_FMT_PCM ∧ byteDepth = INT16_SIZE then some StructFmtChar.h
  else if audioFmt = WAV_FMT_FLOAT ∧ byteDepth = FLOAT_SIZE then some StructFmtChar.f
  else if audioFmt = WAV_FMT_FLOAT ∧ byteDepth = DOUBLE_SIZE then some StructFmtChar.d
  else none

/-- A fragment of the Python heap: the live nested lists, addressed by
position, together with the engine's deque state.  `copy.deepcopy` versus
aliasing is observable here: a deep copy captures the current value at an
address, while the live list at that address can be mutated in place
afterwards. -/
structure PyState where
  heap : List Buffer
  deques : DequeState
deriving DecidableEq

/-- Dereference an address in the heap fragment. -/
def heapGet (heap : List Buffer) (a : ℕ) : Buffer := heap.getD a []

/-- `update_reachback_deques` as invoked on the live buffer at address
`a`: because the source appends `copy.deepcopy(sampleNestedList)`, the
deques capture the buffer's current value, not a reference into the
heap. -/
def record_deepcopy (st : PyState) (a : ℕ) : PyState :=
  { st with deques := update_reachback_deques st.deques (heapGet st.heap a) }

/-- In-place mutation of the live nested list at address `a` (what the
user algorithm, `clip_pcm`/`clip_float` and the conversion routines do to
the buffer object after it was recorded). -/
def mutateAt (st : PyState) (a : ℕ) (f : Buffer → Buffer) : PyState :=
  { st with heap := st.heap.set a (f (heapGet st.heap a)) }

/-- A sample within the valid range of a stream format: floats lie in
`[-1, 1]`; PCM values lie in the signed range for the bit depth. -/
def inRangeSample : FmtKind → ℕ → ℚ → Prop
  | FmtKind.float, _, x => -1 ≤ x ∧ x ≤ 1
  | FmtKind.pcm, d, x =>
      -((2 : ℚ) ^ ((d : ℤ) - 1)) ≤ x ∧ x ≤ (2 : ℚ) ^ ((d : ℤ) - 1) - 1

/-- A valid PCM sample at bit depth `d`: an integer value (denominator 1)
lying in the signed range `[-2^(d-1), 2^(d-1) - 1]` or in the unsigned
range `[0, 2^d - 1]`. -/
def validPcm : ℕ → Bool → ℚ → Prop
  | d, true, x =>
      x.den = 1 ∧ -((2 : ℚ) ^ ((d : ℤ) - 1)) ≤ x ∧ x ≤ (2 : ℚ) ^ ((d : ℤ) - 1) - 1
  | d, false, x =>
      x.den = 1 ∧ 0 ≤ x ∧ x ≤ (2 : ℚ) ^ d - 1

/-- Claim C7: `float_to_pcm` applied element-wise to
`[-1.0, -0.5, 0.0, 0.5, 1.0]` yields `[-32768, -16384, 0, 16383, 32767]`
at bit depth 16 signed, `[0, 16383, 32767, 49151, 65535]` at bit depth 16
unsigned, `[-128, -64, 0, 63, 127]` at bit depth 8 signed, and
`[0, 63, 127, 191, 255]` at bit depth 8 unsigned, following the formulas
`floor(sample * ((2^bitDepth - 1) / 2))` (signed) and
`floor((sample + 1) * ((2^bitDepth - 1) / 2))` (unsigned). -/
theorem claim7_float_to_pcm_table :
    float_to_pcm [[(-1 : ℚ), -(1/2), 0, 1/2, 1]] 16 true
      = [[-32768, -16384, 0, 16383, 32767]] ∧
    float_to_pcm [[(-1 : ℚ), -(1/2), 0, 1/2, 1]] 16 false
      = [[0, 16383, 32767, 49151, 65535]] ∧
    float_to_pcm [[(-1 : ℚ), -(1/2), 0, 1/2, 1]] 8 true
      = [[-128, -64, 0, 63, 127]] ∧
    float_to_pcm [[(-1 : ℚ), -(1/2), 0, 1/2, 1]] 8 false
      = [[0, 63, 127, 191, 255]] := by
  refine ⟨?_, ?_, ?_, ?_⟩ <;> norm_num [float_to_pcm]


lemma flatten_reverse_length (l : List Buffer) :
    l.reverse.flatten.length = (l.map List.length).sum := by
  rw [List.length_flatten, List.map_reverse, List.sum_reverse]

/-- Correctness of the reach-back walk: started strictly negative with a
nonnegative end value, the loop breaks at the unique buffer (counted from
the newest end) that contains the target block, and the located block is
the one at global position `rbIndex + totalLength` of the concatenation
of all buffers from oldest to newest. -/
lemma rbWalk_spec (revBufs : List Buffer) (rbIndex : ℤ)
    (hneg : rbIndex < 0)
    (hend : 0 ≤ rbIndex + ((revBufs.map List.length).sum : ℤ)) :
    ∃ k r, rbWalk (revBufs.map List.length) rbIndex = some (k, r) ∧ 0 ≤ r ∧
      ((revBufs[k]?).bind fun buf => buf[r.toNat]?) =
        revBufs.reverse.flatten[(rbIndex + ((revBufs.map List.length).sum : ℤ)).toNat]? := by
  induction revBufs generalizing rbIndex with
  | nil =>
    exfalso
    simp only [List.map_nil, List.sum_nil, Nat.cast_zero, add_zero] at hend
    omega
  | cons buf rest ih =>
    have hlenA : rest.reverse.flatten.length = (rest.map List.length).sum :=
      flatten_reverse_length rest
    by_cases h : 0 ≤ rbIndex + (buf.length : ℤ)
    · refine ⟨0, rbIndex + (buf.length : ℤ), ?_, h, ?_⟩
      · simp [rbWalk, h]
      · have hidx : (rbIndex + (((buf :: rest).map List.length).sum : ℤ)).toNat
            = (rest.map List.length).sum + (rbIndex + (buf.length : ℤ)).toNat := by
          simp only [List.map_cons, List.sum_cons]
          omega
        rw [hidx, List.reverse_cons, List.flatten_append]
        have hle : rest.reverse.flatten.length ≤
            (rest.map List.length).sum + (rbIndex + (buf.length : ℤ)).toNat := by
          omega
        rw [List.getElem?_append_right hle]
        simp only [hlenA, Nat.add_sub_cancel_left, List.flatten_cons, List.flatten_nil,
          List.append_nil, List.getElem?_cons_zero, Option.some_bind]
    · have hneg' : rbIndex + (buf.length : ℤ) < 0 := by omega
      have hend' : 0 ≤ rbIndex + (buf.length : ℤ) + ((rest.map List.length).sum : ℤ) := by
        simp only [List.map_cons, List.sum_cons] at hend
        push_cast at hend ⊢
        omega
      obtain ⟨k, r, hw, hr, hv⟩ := ih (rbIndex + (buf.length : ℤ)) hneg' hend'
      refine ⟨k + 1, r, ?_, hr, ?_⟩
      · simp only [List.map_cons, rbWalk, hw]
        rw [if_neg (by omega)]
      · have hidx : (rbIndex + (((buf :: rest).map List.length).sum : ℤ)).toNat
            = (rbIndex + (buf.length : ℤ) + ((rest.map List.length).sum : ℤ)).toNat := by
          simp only [List.map_cons, List.sum_cons]
          omega
        rw [hidx, List.reverse_cons, List.flatten_append]
        have hlt : (rbIndex + (buf.length : ℤ) + ((rest.map List.length).sum : ℤ)).toNat
            < rest.reverse.flatten.length := by
          omega
        rw [List.getElem?_append, if_pos hlt]
        simpa using hv

lemma mem_of_getLast?_eq {α : Type} {l : List α} {a : α} (h : l.getLast? = some a) :
    a ∈ l := by
  induction l with
  | nil => simp at h
  | cons x xs ih =>
    cases xs with
    | nil =>
      simp only [List.getLast?_singleton, Option.some.injEq] at h
      simp [h]
    | cons y ys =>
      rw [List.getLast?_cons_cons] at h
      exact List.mem_cons_of_mem x (ih h)

/-- Within-range reach-back queries return the sample at global position
`lens.sum - lastLen + currBlock - numSamples` of the concatenation of the
queued buffers, ordered oldest to newest. -/
lemma reach_back_spec (bufs : List Buffer) (lens : List ℕ)
    (numSamples currBlock currChannel lastLen : ℕ)
    (hlens : lens = bufs.map List.length)
    (hlast : lens.getLast? = some lastLen)
    (hcb : currBlock < lastLen)
    (hns : (numSamples : ℤ) ≤ (lens.sum : ℤ) - (lastLen : ℤ) + (currBlock : ℤ)) :
    reach_back bufs lens numSamples currBlock currChannel =
      (bufs.flatten[lens.sum - lastLen + currBlock - numSamples]?).bind
        fun block => block[currChannel]? := by
  have hmem : lastLen ∈ lens := mem_of_getLast?_eq hlast
  have hle : lastLen ≤ lens.sum :=
    List.single_le_sum (fun x _ => Nat.zero_le x) _ hmem
  have hS : (bufs.reverse.map List.length).sum = lens.sum := by
    rw [List.map_reverse, List.sum_reverse, ← hlens]
  have hrev : lens.reverse = bufs.reverse.map List.length := by
    rw [List.map_reverse, hlens]
  unfold reach_back
  rw [hlast, Option.some_bind, if_neg (by omega), hrev]
  obtain ⟨k, r, hw, hr, hv⟩ :=
    rbWalk_spec bufs.reverse ((currBlock : ℤ) - (lastLen : ℤ) - (numSamples : ℤ))
      (by omega) (by rw [hS]; omega)
  rw [hw, Option.some_bind]
  rw [List.reverse_reverse, hS] at hv
  have hidx : ((currBlock : ℤ) - (lastLen : ℤ) - (numSamples : ℤ) + (lens.sum : ℤ)).toNat
      = lens.sum - lastLen + currBlock - numSamples := by omega
  rw [hidx] at hv
  rw [← Option.bind_assoc, hv]

/-- Reach-back within range returns the recorded sample at global
position `lens.sum - lastLen + currBlock - numSamples` of the
concatenation of the queued buffers, as a `some` value. -/
lemma reach_back_returns_recorded (bufs : List Buffer) (lens : List ℕ)
    (numSamples currBlock currChannel lastLen : ℕ)
    (hlens : lens = bufs.map List.length)
    (hlast : lens.getLast? = some lastLen)
    (hcb : currBlock < lastLen)
    (hns : (numSamples : ℤ) ≤ (lens.sum : ℤ) - (lastLen : ℤ) + (currBlock : ℤ))
    (hch : ∀ block ∈ bufs.flatten, currChannel < block.length) :
    reach_back bufs lens numSamples currBlock currChannel =
      some ((bufs.flatten.getD (lens.sum - lastLen + currBlock - numSamples) []).getD
        currChannel 0) := by
  rw [reach_back_spec bufs lens numSamples currBlock currChannel lastLen hlens hlast hcb hns]
  have hmem : lastLen ∈ lens := mem_of_getLast?_eq hlast
  have hle : lastLen ≤ lens.sum :=
    List.single_le_sum (fun x _ => Nat.zero_le x) _ hmem
  have hflat : bufs.flatten.length = lens.sum := by
    rw [List.length_flatten, ← hlens]
  have hp : lens.sum - lastLen + currBlock - numSamples < bufs.flatten.length := by
    rw [hflat]; omega
  rw [List.getElem?_eq_getElem hp, Option.some_bind]
  have hch' := hch _ (List.getElem_mem hp)
  rw [List.getElem?_eq_getElem hch']
  have h1 : bufs.flatten.getD (lens.sum - lastLen + currBlock - numSamples) []
      = bufs.flatten[lens.sum - lastLen + currBlock - numSamples] := by
    rw [List.getD_eq_getElem?_getD, List.getElem?_eq_getElem hp, Option.getD_some]
  have h2 : (bufs.flatten[lens.sum - lastLen + currBlock - numSamples]).getD currChannel 0
      = bufs.flatten[lens.sum - lastLen + currBlock - numSamples][currChannel] := by
    rw [List.getD_eq_getElem?_getD, List.getElem?_eq_getElem hch', Option.getD_some]
  rw [h1, h2]

/-- Claim C1: for every non-empty history state whose recorded lengths
equal the buffers' block counts, every valid block index in the most
recently recorded buffer, every valid channel index, and every
`numSamples` with `0 <= numSamples <= precedingSamples` (where
`precedingSamples` is the sum of all recorded lengths minus the length of
the most recent buffer plus `currBlock`), `reach_back` returns the sample
at channel `currChannel` of the block at position
`lens.sum - lastLen + currBlock - numSamples` in the concatenation of all
queued buffers ordered oldest to newest — the sample emitted exactly
`numSamples` samples before the current one. -/
theorem claim1_reach_back_in_range (bufs : List Buffer) (lens : List ℕ)
    (numSamples currBlock currChannel lastLen : ℕ)
    (hlens : lens = bufs.map List.length)
    (hlast : lens.getLast? = some lastLen)
    (hcb : currBlock < lastLen)
    (hns : (numSamples : ℤ) ≤ (lens.sum : ℤ) - (lastLen : ℤ) + (currBlock : ℤ))
    (hch : ∀ block ∈ bufs.flatten, currChannel < block.length) :
    reach_back bufs lens numSamples currBlock currChannel =
      some ((bufs.flatten.getD (lens.sum - lastLen + currBlock - numSamples) []).getD
        currChannel 0) :=
  reach_back_returns_recorded bufs lens numSamples currBlock currChannel lastLen
    hlens hlast hcb hns hch

/-- Witness for claim C1: in the history `[[[1,2],[3,4]], [[5,6]]]` (an
older two-block buffer and a newest one-block buffer), reaching back 2
samples from block 0, channel 1 of the newest buffer lands on the sample
`2` at global position 0. -/
theorem claim1_reach_back_in_range_witness :
    reach_back [[[(1 : ℚ), 2], [3, 4]], [[5, 6]]] [2, 1] 2 0 1 = some 2 := by
  have h := claim1_reach_back_in_range [[[(1 : ℚ), 2], [3, 4]], [[5, 6]]] [2, 1]
    2 0 1 1 rfl (by decide) (by decide) (by decide) (by decide)
  simpa [List.getD] using h

/-- Claim C2: when `numSamples` exceeds `precedingSamples` (reaching back
before the start of the stream), `reach_back` returns the
format-appropriate zero value of the format actually exposed to the
algorithm by the selected wrapper strategy: that format is always float
or signed PCM (never unsigned PCM), so the zero value is `0`, which is
what the source returns. -/
theorem claim2_reach_back_before_start_zero (p : EngineFormats) (k : WrapperKind)
    (hk : select_algorithm_wrapper p = some k)
    (bufs : List Buffer) (lens : List ℕ) (numSamples currBlock currChannel lastLen : ℕ)
    (hlast : lens.getLast? = some lastLen)
    (hgt : (lens.sum : ℤ) - (lastLen : ℤ) + (currBlock : ℤ) < (numSamples : ℤ)) :
    formatZero (exposureFmt k p) = 0 ∧
    reach_back bufs lens numSamples currBlock currChannel
      = some (formatZero (exposureFmt k p)) := by
  have hz : formatZero (exposureFmt k p) = 0 := by
    unfold select_algorithm_wrapper at hk
    split_ifs at hk <;>
      simp only [Option.some.injEq, reduceCtorEq] at hk <;>
      subst hk <;>
      simp_all [exposureFmt, formatZero]
  refine ⟨hz, ?_⟩
  unfold reach_back
  rw [hlast, Option.some_bind, if_pos hgt, hz]

/-- Witness for claim C2: an all-float configuration selects
`wrapper_fff`, and a query 5 samples back from a one-buffer history of a
single block takes the zero branch. -/
theorem claim2_reach_back_before_start_zero_witness :
    formatZero (exposureFmt WrapperKind.fff
      ⟨FmtKind.float, FmtKind.float, 32, 32, true, true, FmtKind.float⟩) = 0 ∧
    reach_back [[[(3 : ℚ)]]] [1] 5 0 0
      = some (formatZero (exposureFmt WrapperKind.fff
          ⟨FmtKind.float, FmtKind.float, 32, 32, true, true, FmtKind.float⟩)) :=
  claim2_reach_back_before_start_zero
    ⟨FmtKind.float, FmtKind.float, 32, 32, true, true, FmtKind.float⟩
    WrapperKind.fff (by decide) [[[(3 : ℚ)]]] [1] 5 0 0 1 (by decide) (by decide)

/-- Claim C3: each of the twelve wrapper strategies factors as: compute
the pre-conversion buffer, append exactly that buffer to the reach-back
history via `update_reachback_deques`, invoke the user algorithm on the
post-record deque state with that very same buffer, and post-process the
algorithm's output.  So the buffer recorded and the buffer passed to the
algorithm coincide (in particular for `wrapper_ppf_unsigned`, whose
source passes the in-place-converted alias), and the append happens
before the algorithm is invoked. -/
theorem claim3_wrappers_record_preconversion (k : WrapperKind) (p : EngineFormats)
    (alg : Alg) (s : DequeState) (buf : Buffer) :
    runWrapper k p alg s buf =
      (update_reachback_deques s (preConv k p buf),
       postConv k p
         (alg (update_reachback_deques s (preConv k p buf)) (preConv k p buf))) := by
  cases k <;> rfl

/-- Claim C9: `init_struct_fmt_str` rejects (raises
`IncompatibleFileFormat`, modelled as `none`) every PCM byte depth other
than 1 or 2 — in particular 24-bit PCM (byte depth 3) — and every float
byte depth other than 4 or 8, while accepting the four supported
combinations (8-bit PCM, 16-bit PCM, 32-bit float, 64-bit float). -/
theorem claim9_init_struct_fmt_str_support :
    (∀ byteDepth : ℕ, byteDepth ≠ INT8_SIZE → byteDepth ≠ INT16_SIZE →
      init_struct_fmt_str WAV_FMT_PCM byteDepth = none) ∧
    (∀ byteDepth : ℕ, byteDepth ≠ FLOAT_SIZE → byteDepth ≠ DOUBLE_SIZE →
      init_struct_fmt_str WAV_FMT_FLOAT byteDepth = none) ∧
    init_struct_fmt_str WAV_FMT_PCM INT8_SIZE = some StructFmtChar.B ∧
    init_struct_fmt_str WAV_FMT_PCM INT16_SIZE = some StructFmtChar.h ∧
    init_struct_fmt_str WAV_FMT_FLOAT FLOAT_SIZE = some StructFmtChar.f ∧
    init_struct_fmt_str WAV_FMT_FLOAT DOUBLE_SIZE = some StructFmtChar.d := by
  refine ⟨?_, ?_, by decide, by decide, by decide, by decide⟩
  · intro bd h1 h2
    unfold init_struct_fmt_str WAV_FMT_PCM WAV_FMT_FLOAT INT8_SIZE INT16_SIZE
      FLOAT_SIZE DOUBLE_SIZE at *
    split_ifs <;> first | rfl | omega
  · intro bd h1 h2
    unfold init_struct_fmt_str WAV_FMT_PCM WAV_FMT_FLOAT INT8_SIZE INT16_SIZE
      FLOAT_SIZE DOUBLE_SIZE at *
    split_ifs <;> first | rfl | omega

/-- Witness for claim C9: 24-bit PCM (byte depth 3) and 16-bit float
(byte depth 2) are both rejected. -/
theorem claim9_init_struct_fmt_str_support_witness :
    init_struct_fmt_str WAV_FMT_PCM 3 = none ∧
    init_struct_fmt_str WAV_FMT_FLOAT 2 = none :=
  ⟨claim9_init_struct_fmt_str_support.1 3 (by decide) (by decide),
   claim9_init_struct_fmt_str_support.2.1 2 (by decide) (by decide)⟩

lemma dequePush_getLast? {α : Type} (maxlen : ℕ) (xs : List α) (x : α)
    (h : 1 ≤ maxlen) : (dequePush maxlen xs x).getLast? = some x := by
  unfold dequePush
  split
  · simp
  · rw [List.getLast?_drop, if_neg (by simp; omega)]
    simp

/-- Claim C10: `update_reachback_deques` stores a deep copy together with
the block count.  After recording the live buffer at heap address `a`,
any in-place mutation of that live buffer leaves both deques unchanged,
the newest history entry still holds the buffer's value as it was at
record time, the newest `bufferLenDeque` entry equals that value's block
count, and `reach_back` over the deques is unaffected by the mutation. -/
theorem claim10_record_deepcopy_frame (st : PyState) (a : ℕ) (f : Buffer → Buffer)
    (numSamples currBlock currChannel : ℕ) (hcap : 1 ≤ st.deques.maxlen) :
    (mutateAt (record_deepcopy st a) a f).deques.reachBackDeque
        = (record_deepcopy st a).deques.reachBackDeque ∧
    (mutateAt (record_deepcopy st a) a f).deques.bufferLenDeque
        = (record_deepcopy st a).deques.bufferLenDeque ∧
    (mutateAt (record_deepcopy st a) a f).deques.reachBackDeque.getLast?
        = some (heapGet st.heap a) ∧
    (mutateAt (record_deepcopy st a) a f).deques.bufferLenDeque.getLast?
        = some (heapGet st.heap a).length ∧
    reach_back (mutateAt (record_deepcopy st a) a f).deques.reachBackDeque
        (mutateAt (record_deepcopy st a) a f).deques.bufferLenDeque
        numSamples currBlock currChannel
      = reach_back (record_deepcopy st a).deques.reachBackDeque
          (record_deepcopy st a).deques.bufferLenDeque
          numSamples currBlock currChannel :=
  ⟨rfl, rfl, dequePush_getLast? _ _ _ hcap, dequePush_getLast? _ _ _ hcap, rfl⟩

/-- Witness for claim C10: recording the one-block buffer at address 0
and then overwriting the live buffer with `[]` leaves the stored entry
and its recorded length intact. -/
theorem claim10_record_deepcopy_frame_witness :
    (mutateAt (record_deepcopy ⟨[[[(1 : ℚ)]]], ⟨[], [], 2⟩⟩ 0) 0
        (fun _ => [])).deques.reachBackDeque
      = (record_deepcopy ⟨[[[(1 : ℚ)]]], ⟨[], [], 2⟩⟩ 0).deques.reachBackDeque ∧
    (mutateAt (record_deepcopy ⟨[[[(1 : ℚ)]]], ⟨[], [], 2⟩⟩ 0) 0
        (fun _ => [])).deques.bufferLenDeque
      = (record_deepcopy ⟨[[[(1 : ℚ)]]], ⟨[], [], 2⟩⟩ 0).deques.bufferLenDeque ∧
    (mutateAt (record_deepcopy ⟨[[[(1 : ℚ)]]], ⟨[], [], 2⟩⟩ 0) 0
        (fun _ => [])).deques.reachBackDeque.getLast?
      = some (heapGet [[[(1 : ℚ)]]] 0) ∧
    (mutateAt (record_deepcopy ⟨[[[(1 : ℚ)]]], ⟨[], [], 2⟩⟩ 0) 0
        (fun _ => [])).deques.bufferLenDeque.getLast?
      = some (heapGet [[[(1 : ℚ)]]] 0).length ∧
    reach_back (mutateAt (record_deepcopy ⟨[[[(1 : ℚ)]]], ⟨[], [], 2⟩⟩ 0) 0
          (fun _ => [])).deques.reachBackDeque
        (mutateAt (record_deepcopy ⟨[[[(1 : ℚ)]]], ⟨[], [], 2⟩⟩ 0) 0
          (fun _ => [])).deques.bufferLenDeque 0 0 0
      = reach_back (record_deepcopy ⟨[[[(1 : ℚ)]]], ⟨[], [], 2⟩⟩ 0).deques.reachBackDeque
          (record_deepcopy ⟨[[[(1 : ℚ)]]], ⟨[], [], 2⟩⟩ 0).deques.bufferLenDeque 0 0 0 :=
  claim10_record_deepcopy_frame ⟨[[[(1 : ℚ)]]], ⟨[], [], 2⟩⟩ 0 (fun _ => []) 0 0 0
    (by decide)

lemma flushChunksAux_length (nest : Buffer) (counter fuel : ℕ)
    (hc : counter ≤ nest.length)
    (hf : (nest.length - counter) / SAMPLES_PER_BUFFER + 1 ≤ fuel) :
    (flushChunksAux nest counter fuel).length
      = (nest.length - counter) / SAMPLES_PER_BUFFER + 1 := by
  induction fuel generalizing counter with
  | zero =>
    exfalso
    simp only [SAMPLES_PER_BUFFER] at hf
    omega
  | succ n ih =>
    simp only [flushChunksAux]
    rw [if_neg (by omega)]
    simp only [List.length_cons]
    by_cases h : counter + SAMPLES_PER_BUFFER ≤ nest.length
    · rw [ih (counter + SAMPLES_PER_BUFFER) h
        (by simp only [SAMPLES_PER_BUFFER] at *; omega)]
      simp only [SAMPLES_PER_BUFFER] at *
      omega
    · have hz : flushChunksAux nest (counter + SAMPLES_PER_BUFFER) n = [] := by
        cases n with
        | zero => rfl
        | succ m =>
          simp only [flushChunksAux]
          rw [if_pos (by omega)]
      rw [hz]
      simp only [List.length_nil, SAMPLES_PER_BUFFER] at *
      omega

lemma flushChunksAux_flatten (nest : Buffer) (counter fuel : ℕ)
    (hc : counter ≤ nest.length)
    (hf : (nest.length - counter) / SAMPLES_PER_BUFFER + 1 ≤ fuel) :
    (flushChunksAux nest counter fuel).flatten = nest.drop counter := by
  induction fuel generalizing counter with
  | zero =>
    exfalso
    simp only [SAMPLES_PER_BUFFER] at hf
    omega
  | succ n ih =>
    simp only [flushChunksAux]
    rw [if_neg (by omega), List.flatten_cons]
    by_cases h : counter + SAMPLES_PER_BUFFER ≤ nest.length
    · rw [ih (counter + SAMPLES_PER_BUFFER) h
        (by simp only [SAMPLES_PER_BUFFER] at *; omega)]
      rw [← List.drop_drop]
      exact List.take_append_drop _ _
    · have hz : flushChunksAux nest (counter + SAMPLES_PER_BUFFER) n = [] := by
        cases n with
        | zero => rfl
        | succ m =>
          simp only [flushChunksAux]
          rw [if_pos (by omega)]
      rw [hz, List.flatten_nil, List.append_nil]
      apply List.take_of_length_le
      simp only [List.length_drop]
      omega

lemma flushChunksAux_chunk_le (nest : Buffer) (counter fuel : ℕ) :
    ∀ chunk ∈ flushChunksAux nest counter fuel,
      chunk.length ≤ SAMPLES_PER_BUFFER := by
  induction fuel generalizing counter with
  | zero =>
    intro c hc
    simp [flushChunksAux] at hc
  | succ n ih =>
    intro c hc
    by_cases h : nest.length < counter
    · simp [flushChunksAux, h] at hc
    · simp only [flushChunksAux, if_neg h, List.mem_cons] at hc
      rcases hc with rfl | hc
      · exact le_trans (List.length_take_le _ _) (le_refl _)
      · exact ih _ _ hc

/-- Claim C5 (amended): for reach-back `RB > 0` and channel count `c`,
`flush` constructs exactly `RB` blocks of `c` copies of the
format-appropriate zero for the input format, feeds them to the wrapper
in consecutive chunks of at most `SAMPLES_PER_BUFFER` blocks whose
concatenation is exactly the `RB` zero blocks, and performs exactly
`RB / SAMPLES_PER_BUFFER + 1` wrapper invocations (each followed by a
repack and a write) — one more than `ceil(RB / SAMPLES_PER_BUFFER)` when
`SAMPLES_PER_BUFFER` divides `RB`, in which case the final chunk is
empty; when `RB = 0`, no wrapper invocation and no write occur. -/
theorem claim5_flush_amended (readFormat : FmtKind) (readSigned : Bool)
    (readBitDepth reachBack numChannels : ℕ) (hRB : 0 < reachBack) :
    (flushChunks readFormat readSigned readBitDepth reachBack numChannels).length
        = reachBack / SAMPLES_PER_BUFFER + 1 ∧
    (flushChunks readFormat readSigned readBitDepth reachBack numChannels).flatten
        = List.replicate reachBack
            (List.replicate numChannels (flushZero readFormat readSigned readBitDepth)) ∧
    (∀ chunk ∈ flushChunks readFormat readSigned readBitDepth reachBack numChannels,
        chunk.length ≤ SAMPLES_PER_BUFFER) ∧
    flushChunks readFormat readSigned readBitDepth 0 numChannels = [] := by
  have hnl : (flushNest readFormat readSigned readBitDepth reachBack numChannels).length
      = reachBack := by
    simp [flushNest]
  refine ⟨?_, ?_, ?_, by simp [flushChunks]⟩
  · rw [flushChunks, if_neg (by omega)]
    rw [flushChunksAux_length _ 0 _ (by omega)
      (by rw [hnl]; simp only [SAMPLES_PER_BUFFER]; omega)]
    rw [hnl, Nat.sub_zero]
  · rw [flushChunks, if_neg (by omega)]
    rw [flushChunksAux_flatten _ 0 _ (by omega)
      (by rw [hnl]; simp only [SAMPLES_PER_BUFFER]; omega)]
    simp [flushNest]
  · rw [flushChunks, if_neg (by omega)]
    exact flushChunksAux_chunk_le _ _ _

/-- Witness for claim C5 (amended): with reach-back 1 and one channel,
`flush` performs one wrapper invocation whose chunk is the single
zero block. -/
theorem claim5_flush_amended_witness :
    0 < 1 ∧
    ((flushChunks FmtKind.float true 32 1 1).length = 1 / SAMPLES_PER_BUFFER + 1 ∧
     (flushChunks FmtKind.float true 32 1 1).flatten
        = List.replicate 1 (List.replicate 1 (flushZero FmtKind.float true 32)) ∧
     (∀ chunk ∈ flushChunks FmtKind.float true 32 1 1,
        chunk.length ≤ SAMPLES_PER_BUFFER) ∧
     flushChunks FmtKind.float true 32 0 1 = []) :=
  ⟨by decide, claim5_flush_amended FmtKind.float true 32 1 1 (by decide)⟩

/-- Counterexample to claim C5 as stated: with reach-back exactly
`SAMPLES_PER_BUFFER = 1024`, `flush` performs 2 wrapper invocations —
the loop guard `counter > len(nest)` allows `counter == len(nest)`, so a
final empty chunk is processed — whereas
`ceil(1024 / SAMPLES_PER_BUFFER) = 1`. -/
theorem claim5_flush_counterexample :
    (flushChunks FmtKind.pcm true 16 SAMPLES_PER_BUFFER 1).length
      ≠ (SAMPLES_PER_BUFFER + SAMPLES_PER_BUFFER - 1) / SAMPLES_PER_BUFFER := by
  have hnl : (flushNest FmtKind.pcm true 16 SAMPLES_PER_BUFFER 1).length
      = SAMPLES_PER_BUFFER := by simp [flushNest]
  rw [flushChunks, if_neg (by simp [SAMPLES_PER_BUFFER])]
  rw [flushChunksAux_length _ 0 _ (by omega)
    (by rw [hnl]; simp only [SAMPLES_PER_BUFFER]; omega)]
  rw [hnl]
  simp only [SAMPLES_PER_BUFFER]
  omega

/-- Claim C4: with a positive configured reach-back `RB`, history deques
of capacity `ceil(RB / SAMPLES_PER_BUFFER) + 1`, and an engine-reachable
history (every queued buffer except possibly the most recent holds
exactly `SAMPLES_PER_BUFFER` blocks; nothing has been evicted while the
queue is below capacity), any `reach_back` query with
`numSamples ≤ RB` from a block of the most recent buffer that refers to a
sample recorded since the start of the stream is satisfied from the
queue: the query does not take the before-start-of-stream zero branch and
returns the recorded sample. -/
theorem claim4_capacity_invariant (reachBack evicted : ℕ)
    (bufs : List Buffer) (lens : List ℕ)
    (numSamples currBlock currChannel lastLen : ℕ)
    (hRB : 0 < reachBack)
    (hlens : lens = bufs.map List.length)
    (hlast : lens.getLast? = some lastLen)
    (hcap : bufs.length ≤ reachBackDequeLength reachBack)
    (hfull : ∀ b ∈ bufs.dropLast, b.length = SAMPLES_PER_BUFFER)
    (hevict : bufs.length < reachBackDequeLength reachBack → evicted = 0)
    (hcb : currBlock < lastLen)
    (hns : numSamples ≤ reachBack)
    (hsince : (numSamples : ℤ) ≤ ((evicted * SAMPLES_PER_BUFFER : ℕ) : ℤ)
        + ((lens.sum : ℤ) - (lastLen : ℤ) + (currBlock : ℤ)))
    (hch : ∀ block ∈ bufs.flatten, currChannel < block.length) :
    (numSamples : ℤ) ≤ (lens.sum : ℤ) - (lastLen : ℤ) + (currBlock : ℤ) ∧
    reach_back bufs lens numSamples currBlock currChannel =
      some ((bufs.flatten.getD (lens.sum - lastLen + currBlock - numSamples) []).getD
        currChannel 0) := by
  have hne : lens ≠ [] := by
    intro h
    rw [h] at hlast
    simp at hlast
  have hlastEq : lens.getLast hne = lastLen := by
    rw [List.getLast?_eq_getLast _ hne] at hlast
    exact Option.some.inj hlast
  have hsum : lens.sum = lens.dropLast.sum + lastLen := by
    conv_lhs => rw [← List.dropLast_append_getLast hne]
    rw [List.sum_append, hlastEq]
    simp
  have hdropmap : lens.dropLast = bufs.dropLast.map List.length := by
    rw [hlens, List.map_dropLast]
  have hconst : ∀ x ∈ lens.dropLast, x = SAMPLES_PER_BUFFER := by
    intro x hx
    rw [hdropmap] at hx
    obtain ⟨b, hb, rfl⟩ := List.mem_map.mp hx
    exact hfull b hb
  have hdsum : lens.dropLast.sum = lens.dropLast.length * SAMPLES_PER_BUFFER := by
    rw [List.sum_eq_card_nsmul _ _ hconst, smul_eq_mul]
  have hdlen : lens.dropLast.length = bufs.length - 1 := by
    rw [List.length_dropLast, hlens, List.length_map]
  have hblen : 1 ≤ bufs.length := by
    by_contra h
    have : bufs = [] := by
      cases bufs with
      | nil => rfl
      | cons x xs => simp at h
    rw [this] at hlens
    exact hne (by simpa using hlens)
  have hmain : (numSamples : ℤ) ≤ (lens.sum : ℤ) - (lastLen : ℤ) + (currBlock : ℤ) := by
    rcases Nat.lt_or_ge bufs.length (reachBackDequeLength reachBack) with hL | hL
    · have he := hevict hL
      rw [he] at hsince
      simpa using hsince
    · have hLe : bufs.length = reachBackDequeLength reachBack :=
        Nat.le_antisymm hcap hL
      rw [reachBackDequeLength, if_pos hRB] at hLe
      simp only [SAMPLES_PER_BUFFER] at hLe hdsum hns ⊢
      omega
  exact ⟨hmain,
    reach_back_returns_recorded bufs lens numSamples currBlock currChannel lastLen
      hlens hlast hcb hmain hch⟩

/-- Witness for claim C4: reach-back 1 (deque capacity 2), a one-buffer
history of a single block, and the query for the current sample itself. -/
theorem claim4_capacity_invariant_witness :
    ((0 : ℕ) : ℤ) ≤ (([1] : List ℕ).sum : ℤ) - ((1 : ℕ) : ℤ) + ((0 : ℕ) : ℤ) ∧
    reach_back [[[(7 : ℚ)]]] [1] 0 0 0 =
      some ((([[[(7 : ℚ)]]] : List Buffer).flatten.getD
        (([1] : List ℕ).sum - 1 + 0 - 0) []).getD 0 0) :=
  claim4_capacity_invariant 1 0 [[[(7 : ℚ)]]] [1] 0 0 0 1 (by decide) rfl (by decide)
    (by decide) (by decide) (fun _ => rfl) (by decide) (by decide) (by decide) (by decide)

lemma two_zpow_natCast (d : ℕ) (hd : 1 ≤ d) :
    (2 : ℚ) ^ ((d : ℤ) - 1) = (2 : ℚ) ^ (d - 1) := by
  rw [show (d : ℤ) - 1 = ((d - 1 : ℕ) : ℤ) by omega, zpow_natCast]

lemma two_mul_pow_pred (d : ℕ) (hd : 1 ≤ d) :
    2 * (2 : ℚ) ^ (d - 1) = (2 : ℚ) ^ d := by
  rw [← pow_succ']
  congr 1
  omega

lemma floor_roundtrip_nonpos (P : ℚ) (n : ℤ) (hP : 0 < P) (hn : n ≤ 0)
    (hlow : -P ≤ (n : ℚ)) :
    ⌊((n : ℚ) / P) * ((2 * P - 1) / 2)⌋ = n := by
  have h2P : (0 : ℚ) < 2 * P := by linarith
  have hnQ : (n : ℚ) ≤ 0 := by exact_mod_cast hn
  have hq : ((n : ℚ) / P) * ((2 * P - 1) / 2) = (n : ℚ) - (n : ℚ) / (2 * P) := by
    field_simp
    ring
  have hdiv_le : (n : ℚ) / (2 * P) ≤ 0 :=
    div_nonpos_iff.mpr (Or.inr ⟨hnQ, le_of_lt h2P⟩)
  have hlt : -(n : ℚ) / (2 * P) < 1 := (div_lt_one h2P).mpr (by linarith)
  rw [neg_div] at hlt
  rw [hq, Int.floor_eq_iff]
  constructor
  · linarith
  · linarith

lemma floor_roundtrip_pos (P : ℚ) (n : ℤ) (hP : 0 < P) (hn : 0 < n)
    (hhigh : (n : ℚ) ≤ P - 1) :
    ⌊((n : ℚ) / P + 1 / P) * ((2 * P - 1) / 2)⌋ = n := by
  have h2P : (0 : ℚ) < 2 * P := by linarith
  have hnQ : (0 : ℚ) < (n : ℚ) := by exact_mod_cast hn
  have hq : ((n : ℚ) / P + 1 / P) * ((2 * P - 1) / 2)
      = ((n : ℚ) + 1) - ((n : ℚ) + 1) / (2 * P) := by
    field_simp
    ring
  have hpos : 0 < ((n : ℚ) + 1) / (2 * P) := div_pos (by linarith) h2P
  have hle1 : ((n : ℚ) + 1) / (2 * P) ≤ 1 := by
    rw [div_le_one h2P]
    linarith
  rw [hq, Int.floor_eq_iff]
  constructor
  · linarith
  · linarith

lemma floor_roundtrip_unsigned (c : ℚ) (n : ℤ) (hc : c ≠ 0) :
    ⌊((n : ℚ) / c - 1 + 1) * c⌋ = n := by
  have hq : ((n : ℚ) / c - 1 + 1) * c = (n : ℚ) := by
    field_simp
  rw [hq, Int.floor_intCast]

lemma roundtrip_sample_signed (d : ℕ) (hd : 1 ≤ d) (x : ℚ)
    (hx : validPcm d true x) :
    ((⌊(if x ≤ 0 then x / (2 : ℚ) ^ ((d : ℤ) - 1)
        else x / (2 : ℚ) ^ ((d : ℤ) - 1) + 1 / (2 : ℚ) ^ ((d : ℤ) - 1))
        * (((2 : ℚ) ^ d - 1) / 2)⌋ : ℤ) : ℚ) = x := by
  obtain ⟨hden, hlow, hhigh⟩ := hx
  have hxn : ((x.num : ℤ) : ℚ) = x := (Rat.den_eq_one_iff x).mp hden
  have hP : (0 : ℚ) < (2 : ℚ) ^ (d - 1) := by positivity
  have hzp : (2 : ℚ) ^ ((d : ℤ) - 1) = (2 : ℚ) ^ (d - 1) := two_zpow_natCast d hd
  have h2d : ((2 : ℚ) ^ d - 1) / 2 = (2 * (2 : ℚ) ^ (d - 1) - 1) / 2 := by
    rw [two_mul_pow_pred d hd]
  rw [hzp] at hlow hhigh ⊢
  by_cases hx0 : x ≤ 0
  · rw [if_pos hx0, h2d, ← hxn]
    rw [floor_roundtrip_nonpos ((2 : ℚ) ^ (d - 1)) x.num hP
      (by rw [← hxn] at hx0; exact_mod_cast hx0)
      (by rw [hxn]; exact hlow)]
  · rw [if_neg hx0, h2d, ← hxn]
    rw [floor_roundtrip_pos ((2 : ℚ) ^ (d - 1)) x.num hP
      (by rw [← hxn] at hx0; exact_mod_cast lt_of_not_le hx0)
      (by rw [hxn]; exact hhigh)]

lemma roundtrip_sample_unsigned (d : ℕ) (hd : 1 ≤ d) (x : ℚ)
    (hx : validPcm d false x) :
    ((⌊(x / (((2 : ℚ) ^ d - 1) / 2) - 1 + 1) * (((2 : ℚ) ^ d - 1) / 2)⌋ : ℤ) : ℚ)
      = x := by
  obtain ⟨hden, hlow, hhigh⟩ := hx
  have hxn : ((x.num : ℤ) : ℚ) = x := (Rat.den_eq_one_iff x).mp hden
  have h2 : (2 : ℚ) ≤ 2 ^ d := by
    calc (2 : ℚ) = 2 ^ 1 := (pow_one 2).symm
    _ ≤ 2 ^ d := pow_le_pow_right₀ (by norm_num) hd
  have hc : (((2 : ℚ) ^ d - 1) / 2) ≠ 0 :=
    ne_of_gt (div_pos (by linarith) (by norm_num))
  rw [← hxn, floor_roundtrip_unsigned _ _ hc]

lemma map_map_roundtrip (buf : Buffer) (f g : ℚ → ℚ)
    (h : ∀ block ∈ buf, ∀ x ∈ block, g (f x) = x) :
    (buf.map fun block => block.map f).map (fun block => block.map g) = buf := by
  rw [List.map_map]
  conv_rhs => rw [← List.map_id buf]
  refine List.map_congr_left ?_
  intro block hb
  simp only [Function.comp_apply, List.map_map, id]
  conv_rhs => rw [← List.map_id block]
  refine List.map_congr_left ?_
  intro x hx
  exact h block hb x hx

/-- Claim C6: a buffer of integer PCM samples, each within the valid
range for bit depth `d` and signedness `s`, is reproduced exactly — in
particular within 1 unit of quantization error and exactly at the
boundary values — by `pcm_to_float` followed by `float_to_pcm` at the
same `(d, s)`. -/
theorem claim6_pcm_float_roundtrip (bitDepth : ℕ) (signed : Bool) (buf : Buffer)
    (hd : 1 ≤ bitDepth)
    (h : ∀ block ∈ buf, ∀ x ∈ block, validPcm bitDepth signed x) :
    float_to_pcm (pcm_to_float buf bitDepth signed) bitDepth signed = buf := by
  cases signed with
  | false =>
    simp only [pcm_to_float, float_to_pcm, Bool.false_eq_true, if_false]
    exact map_map_roundtrip buf _ _
      (fun block hb x hx => roundtrip_sample_unsigned bitDepth hd x (h block hb x hx))
  | true =>
    simp only [pcm_to_float, float_to_pcm, if_true]
    exact map_map_roundtrip buf _ _
      (fun block hb x hx => roundtrip_sample_signed bitDepth hd x (h block hb x hx))

/-- Witness for claim C6: the 16-bit signed boundary buffer
`[[-32768, 0, 32767]]` round-trips exactly. -/
theorem claim6_pcm_float_roundtrip_witness :
    float_to_pcm
        (pcm_to_float [[((-32768 : ℤ) : ℚ), ((0 : ℤ) : ℚ), ((32767 : ℤ) : ℚ)]] 16 true)
        16 true
      = [[((-32768 : ℤ) : ℚ), ((0 : ℤ) : ℚ), ((32767 : ℤ) : ℚ)]] :=
  claim6_pcm_float_roundtrip 16 true
    [[((-32768 : ℤ) : ℚ), ((0 : ℤ) : ℚ), ((32767 : ℤ) : ℚ)]] (by norm_num)
    (by
      intro block hb x hx
      simp only [List.mem_singleton] at hb
      subst hb
      simp only [List.mem_cons, List.mem_singleton, List.not_mem_nil, or_false] at hx
      rcases hx with rfl | rfl | rfl <;>
        refine ⟨Rat.den_intCast _, ?_, ?_⟩ <;> norm_num)

lemma clip_float_eq_self (buf : Buffer)
    (h : ∀ block ∈ buf, ∀ x ∈ block, -1 ≤ x ∧ x ≤ 1) :
    clip_float buf = buf := by
  unfold clip_float
  conv_rhs => rw [← List.map_id buf]
  refine List.map_congr_left ?_
  intro block hb
  conv_rhs => rw [← List.map_id block]
  refine List.map_congr_left ?_
  intro x hx
  obtain ⟨h1, h2⟩ := h block hb x hx
  rw [if_neg (by linarith), if_neg (by linarith)]
  rfl

lemma clip_pcm_eq_self (buf : Buffer) (d : ℕ)
    (h : ∀ block ∈ buf, ∀ x ∈ block,
      -((2 : ℚ) ^ ((d : ℤ) - 1)) ≤ x ∧ x ≤ (2 : ℚ) ^ ((d : ℤ) - 1) - 1) :
    clip_pcm buf d = buf := by
  unfold clip_pcm
  conv_rhs => rw [← List.map_id buf]
  refine List.map_congr_left ?_
  intro block hb
  conv_rhs => rw [← List.map_id block]
  refine List.map_congr_left ?_
  intro x hx
  obtain ⟨h1, h2⟩ := h block hb x hx
  rw [if_neg (by linarith), if_neg (by linarith)]
  rfl

/-- Claim C8: when the input format, output format and algorithm-exposure
format all coincide (same kind, bit depth and signedness) and the
algorithm is the no-op `default_algorithm`, the wrapper strategy selected
by `select_algorithm_wrapper` returns its input buffer unchanged for
every buffer of in-range samples — the sample-level identity-copy
invariant behind the byte-for-byte round trip — in the float and
signed-PCM cases (the unsigned-PCM case is excluded by the claim
itself). -/
theorem claim8_identity_copy (p : EngineFormats) (s : DequeState) (buf : Buffer)
    (hio : p.readFormat = p.writeFormat)
    (halg : p.pluginFmt = p.readFormat)
    (hbd : p.readBitDepth = p.writeBitDepth)
    (hsg : p.readSigned = p.writeSigned)
    (hns : p.readFormat = FmtKind.float ∨ p.readSigned = true)
    (hrange : ∀ block ∈ buf, ∀ x ∈ block,
      inRangeSample p.readFormat p.readBitDepth x) :
    ∃ k, select_algorithm_wrapper p = some k ∧
      (runWrapper k p default_algorithm s buf).2 = buf := by
  cases hfmt : p.readFormat with
  | float =>
    have hw : p.writeFormat = FmtKind.float := by rw [← hio, hfmt]
    have hpl : p.pluginFmt = FmtKind.float := by rw [halg, hfmt]
    refine ⟨WrapperKind.fff, ?_, ?_⟩
    · simp [select_algorithm_wrapper, hfmt, hw, hpl]
    · show clip_float buf = buf
      refine clip_float_eq_self buf fun block hb x hx => ?_
      have hr := hrange block hb x hx
      rw [hfmt] at hr
      exact hr
  | pcm =>
    have hsr : p.readSigned = true := by
      rcases hns with hns | hns
      · rw [hfmt] at hns
        cases hns
      · exact hns
    have hw : p.writeFormat = FmtKind.pcm := by rw [← hio, hfmt]
    have hpl : p.pluginFmt = FmtKind.pcm := by rw [halg, hfmt]
    have hsw : p.writeSigned = true := by rw [← hsg]; exact hsr
    refine ⟨WrapperKind.ppp_signed_no_conversion, ?_, ?_⟩
    · simp [select_algorithm_wrapper, hfmt, hw, hpl, hsr, hsw, hbd]
    · show clip_pcm buf p.readBitDepth = buf
      refine clip_pcm_eq_self buf p.readBitDepth fun block hb x hx => ?_
      have hr := hrange block hb x hx
      rw [hfmt] at hr
      exact hr

/-- Witness for claim C8: an all-float configuration with the in-range
buffer `[[1/2]]` selects `wrapper_fff` and returns the buffer
unchanged. -/
theorem claim8_identity_copy_witness :
    ∃ k, select_algorithm_wrapper
        ⟨FmtKind.float, FmtKind.float, 32, 32, true, true, FmtKind.float⟩ = some k ∧
      (runWrapper k ⟨FmtKind.float, FmtKind.float, 32, 32, true, true, FmtKind.float⟩
          default_algorithm ⟨[], [], 0⟩ [[(1/2 : ℚ)]]).2 = [[(1/2 : ℚ)]] :=
  claim8_identity_copy
    ⟨FmtKind.float, FmtKind.float, 32, 32, true, true, FmtKind.float⟩
    ⟨[], [], 0⟩ [[(1/2 : ℚ)]] rfl rfl rfl rfl (Or.inl rfl)
    (by
      intro block hb x hx
      simp only [List.mem_singleton] at hb
      subst hb
      simp only [List.mem_singleton] at hx
      subst hx
      refine ⟨by norm_num, by norm_num⟩)

end AudioSpec
